import Mathlib

/-!
Shallow embedding of the whisper-transcriber backend transcription pipeline
(`src/backend/src/whisper.service.ts` and `src/backend/src/routes.ts`).

External effects (child processes, the filesystem) are modelled by explicit
environment values: a `ProcEvent` records how one spawned child process
behaved, and per-chunk filesystem reads are recorded as `Option String`
(file present with content, or absent).  Promise rejection / thrown
exceptions are modelled with `Except String`.
-/

namespace WhisperTranscriber

/-- JS `String.prototype.trim()`: drop whitespace characters from both ends
of the string (modelled structurally over the character list so that it
evaluates by kernel reduction). -/
def trimString (s : String) : String :=
  String.mk (((s.data.dropWhile Char.isWhitespace).reverse.dropWhile
    Char.isWhitespace).reverse)

/-- Whether the first character list starts the second one. -/
def charsLead : List Char → List Char → Bool
  | [], _ => true
  | _ :: _, [] => false
  | a :: as, b :: bs => a == b && charsLead as bs

/-- JS `String.prototype.endsWith` (modelled structurally over the
character lists so that it evaluates by kernel reduction). -/
def endsWithStr (s post : String) : Bool :=
  charsLead post.data.reverse s.data.reverse

/-- Lexicographic comparison of character lists (by code point). -/
def charsLe : List Char → List Char → Bool
  | [], _ => true
  | _ :: _, [] => false
  | a :: as, b :: bs =>
      if a.val < b.val then true
      else if b.val < a.val then false
      else charsLe as bs

/-- Lexicographic string comparison, the order `localeCompare` induces on
the plain ASCII chunk file names. -/
def stringLe (a b : String) : Bool :=
  charsLe a.data b.data

/-- Stable ascending insertion of one string into a sorted list. -/
def insertSorted (x : String) : List String → List String
  | [] => [x]
  | y :: ys => if stringLe x y then x :: y :: ys else y :: insertSorted x ys

/-- JS `Array.prototype.sort` with the `(a, b) => a.localeCompare(b)`
comparator: a stable ascending sort (modelled as insertion sort). -/
def sortStrings : List String → List String
  | [] => []
  | x :: xs => insertSorted x (sortStrings xs)

/-- How a spawned child process behaved: either the spawn itself failed
(the `error` event, carrying the OS-level message), or the process ran and
closed with an exit code, having written `stderr` to its error stream. -/
inductive ProcEvent where
  | spawnError (msg : String)
  | exited (code : Int) (stderr : String)
deriving DecidableEq, Repr

/-- Whether the process event is a clean run: spawned and exited with 0. -/
def ProcEvent.succeeded : ProcEvent → Bool
  | ProcEvent.exited code _ => code == 0
  | ProcEvent.spawnError _ => false

/-- Embedding of `runCommand(command, args, errPrefix)` from
`whisper.service.ts`: resolves on exit code 0, rejects with
`` `${errPrefix}: codigo ${code}. ${stderr}`.trim() `` on a non-zero exit
code, and rejects with `` `${errPrefix}: ${err.message}` `` when the process
could not be spawned.  `command` and `args` only feed the external process,
which is abstracted by `ev`. -/
def runCommand (command : String) (args : List String) (label : String)
    (ev : ProcEvent) : Except String Unit :=
  match ev with
  | ProcEvent.spawnError msg => Except.error (label ++ ": " ++ msg)
  | ProcEvent.exited code stderr =>
      if code ≠ 0 then
        Except.error (trimString (label ++ ": codigo " ++ toString code ++ ". " ++ stderr))
      else
        Except.ok ()

/-- Argument list of the ffmpeg normalization invocation
(`whisper.service.ts`, chunked revision):
`["-y", "-i", inputFile, "-ac", "1", "-ar", "16000", normalizedInput]`. -/
def normalizeArgs (inputFile normalizedInput : String) : List String :=
  ["-y", "-i", inputFile, "-ac", "1", "-ar", "16000", normalizedInput]

/-- Argument list of the ffmpeg segmentation invocation (45 s segments with
a silence-remove filter, writing `chunk_%03d.wav` files). -/
def segmentArgs (normalizedInput segmentPattern : String) : List String :=
  ["-y", "-i", normalizedInput,
   "-af", "silenceremove=stop_periods=-1:stop_duration=0.7:stop_threshold=-35dB",
   "-f", "segment", "-segment_time", "45",
   "-c:a", "pcm_s16le", "-ar", "16000", "-ac", "1", segmentPattern]

/-- `collectChunkFiles`: list the directory entries, keep the `.wav` files,
sort them (ascending string order, modelling `localeCompare`), and prefix
each with the chunks directory. -/
def collectChunkFiles (chunksDir : String) (entries : List String) : List String :=
  (sortStrings (entries.filter (fun n => endsWithStr n ".wav"))).map
    (fun n => chunksDir ++ "/" ++ n)

/-- Worker-pool size: `Math.min(chunks.length, Math.max(1, Math.floor(cpuCores / 4)))`. -/
def concurrency (numChunks cpuCores : Nat) : Nat :=
  min numChunks (max 1 (cpuCores / 4))

/-- Threads given to each recognition process:
`Math.max(4, Math.floor(cpuCores / concurrency))`. -/
def threadsPerProcess (numChunks cpuCores : Nat) : Nat :=
  max 4 (cpuCores / concurrency numChunks cpuCores)

/-- The domain-specific prompt passed to every per-chunk recognition call. -/
def initialPrompt : String :=
  "Suporte tecnico sistema WMS Conquista empresa Salog. Termos: Picking Expresso, bipar, SKU, enderecamento, inventario, rotina B22, mercadoria, AnyDesk, WhatsApp."

/-- Configuration record of `WhisperService`. -/
structure WhisperConfig where
  whisperPath : String
  modelPath : String
  language : String
deriving DecidableEq, Repr

/-- Argument list of one per-chunk whisper-cli invocation. -/
def chunkArgs (cfg : WhisperConfig) (threads : Nat) (chunkFile partBase : String) :
    List String :=
  ["-m", cfg.modelPath, "-l", cfg.language, "-t", toString threads,
   "-p", initialPrompt, "-f", chunkFile, "-otxt", "-of", partBase]

/-- Environment of one chunk's recognition step: how the whisper-cli process
behaved, and whether the expected `part_XXX.txt` file exists afterwards
(`some content`) or not (`none`). -/
structure ChunkEnv where
  event : ProcEvent
  partFileContent : Option String
deriving DecidableEq, Repr

/-- One worker-loop iteration for chunk `index` (chunked revision): run
whisper-cli via `runCommand` with label `` `Erro no bloco ${index + 1}` ``;
on success, if the part file exists its trimmed content is the chunk's
result, and if it does not exist the pre-filled empty string is kept. -/
def processChunk (cfg : WhisperConfig) (threads : Nat) (index : Nat)
    (chunkFile partBase : String) (env : ChunkEnv) : Except String String :=
  match runCommand cfg.whisperPath (chunkArgs cfg threads chunkFile partBase)
      ("Erro no bloco " ++ toString (index + 1)) env.event with
  | Except.error e => Except.error e
  | Except.ok _ =>
      match env.partFileContent with
      | some content => Except.ok (trimString content)
      | none => Except.ok ""

/-- The text a chunk contributes to the assembled transcript: the trimmed
content of its part file when that file exists, the pre-filled empty string
when it does not. -/
def recognizedText (c : ChunkEnv) : String :=
  match c.partFileContent with
  | some content => trimString content
  | none => ""

/-- The worker pool draining the shared index queue: chunk indices are
processed in completion order `order`; a successful chunk writes its result
at its own index into the pre-sized `parts` array; the first failing chunk
rejects the whole pool. -/
def drainQueue (results : Nat → Except String String) :
    List Nat → List String → Except String (List String)
  | [], parts => Except.ok parts
  | i :: rest, parts =>
      match results i with
      | Except.error e => Except.error e
      | Except.ok txt => drainQueue results rest (parts.set i txt)

/-- Environment of one whole pipeline run (chunked revision of
`WhisperService.transcribe`): how the two ffmpeg invocations behaved, the
directory entries produced by segmentation, a per-index chunk environment,
the CPU-core count, and the outcome of the scratch-directory removal. -/
structure PipelineEnv where
  cfg : WhisperConfig
  inputFile : String
  outputBasePath : String
  normalizeEvent : ProcEvent
  segmentEvent : ProcEvent
  chunkEntries : List String
  chunkEnv : Nat → ChunkEnv
  cpuCores : Nat
  rmResult : Except String Unit

/-- The chunk file list of a pipeline run. -/
def pipelineChunks (env : PipelineEnv) : List String :=
  collectChunkFiles "chunks" env.chunkEntries

/-- Per-index worker result of a pipeline run. -/
def chunkResult (env : PipelineEnv) (i : Nat) : Except String String :=
  processChunk env.cfg
    (threadsPerProcess (pipelineChunks env).length env.cpuCores) i
    ((pipelineChunks env).getD i "")
    ("partial/part_" ++ toString i) ((env.chunkEnv) i)

/-- The try-block of the chunked `WhisperService.transcribe`: normalize,
segment, enumerate chunks (failing with the `NoChunksProduced` message when
none exist), drain the queue in completion order `order`, and join the
ordered parts with newlines.  A thrown error anywhere aborts the rest. -/
def transcribePipeline (env : PipelineEnv) (order : List Nat) :
    Except String String :=
  match runCommand "ffmpeg" (normalizeArgs env.inputFile "normalized.wav")
      "Erro ao normalizar audio com ffmpeg" env.normalizeEvent with
  | Except.error e => Except.error e
  | Except.ok _ =>
  match runCommand "ffmpeg" (segmentArgs "normalized.wav" "chunks/chunk_%03d.wav")
      "Erro ao segmentar audio com ffmpeg" env.segmentEvent with
  | Except.error e => Except.error e
  | Except.ok _ =>
      let chunks := pipelineChunks env
      if chunks.length = 0 then
        Except.error "Nenhum bloco de audio foi gerado para transcricao."
      else
        match drainQueue (chunkResult env) order (List.replicate chunks.length "") with
        | Except.error e => Except.error e
        | Except.ok parts => Except.ok (String.intercalate "\n" parts)

/-- Embedding of `.catch(() => undefined)` attached to a cleanup promise:
whatever the cleanup did, the observed outcome is success. -/
def swallowErrors (r : Except String Unit) : Except String Unit :=
  match r with
  | Except.error _ => Except.ok ()
  | Except.ok _ => Except.ok ()

/-- A `try { body } finally { cleanup }` whose cleanup outcome is `cleanup`:
the Boolean records that the cleanup ran; a cleanup error would replace the
body's outcome (JS semantics), a cleanup success leaves it unchanged. -/
def runWithCleanup (body : Except String α) (cleanup : Except String Unit) :
    Except String α × Bool :=
  match cleanup with
  | Except.error e => (Except.error e, true)
  | Except.ok _ => (body, true)

/-- The whole chunked `WhisperService.transcribe`: the pipeline try-block
wrapped in the `finally` that removes the scratch directory, with the
removal's own failure swallowed by `.catch(() => undefined)`. -/
def transcribe (env : PipelineEnv) (order : List Nat) :
    Except String String × Bool :=
  runWithCleanup (transcribePipeline env order) (swallowErrors env.rmResult)

/-- Environment of the single-pass revision of `WhisperService.transcribe`
(first revision in `whisper.service.ts`): ffmpeg normalization event,
whisper-cli event, and the content of `outputBasePath + ".txt"` afterwards
(`none` when the file does not exist). -/
structure SinglePassEnv where
  normalizeEvent : ProcEvent
  whisperEvent : ProcEvent
  outputFileContent : Option String
deriving DecidableEq, Repr

/-- The try-block of the single-pass `WhisperService.transcribe`: normalize,
run whisper-cli once, and fail with
`"Arquivo de transcricao nao foi gerado."` when the expected output file is
absent despite exit code 0. -/
def transcribeSinglePass (env : SinglePassEnv) : Except String String :=
  match runCommand "ffmpeg" ["-y", "-i", "input", "-ac", "1", "-ar", "16000", "normalized.wav"]
      "Erro ao normalizar audio com ffmpeg" env.normalizeEvent with
  | Except.error e => Except.error e
  | Except.ok _ =>
  match runCommand "whisper-cli" [] "Erro ao executar whisper-cli" env.whisperEvent with
  | Except.error e => Except.error e
  | Except.ok _ =>
      match env.outputFileContent with
      | none => Except.error "Arquivo de transcricao nao foi gerado."
      | some content => Except.ok content

/-! ## Job state machine (`routes.ts`) -/

/-- `type JobStatus = "queued" | "processing" | "completed" | "failed"`. -/
inductive JobStatus where
  | queued
  | processing
  | completed
  | failed
deriving DecidableEq, Repr

/-- A status is terminal when it is `completed` or `failed`. -/
def JobStatus.isTerminal : JobStatus → Bool
  | JobStatus.completed => true
  | JobStatus.failed => true
  | _ => false

/-- The `TranscriptionJob` record of `routes.ts`; the two `Date` timestamps
are modelled by their presence. -/
structure Job where
  status : JobStatus
  progress : Nat
  stage : String
  startedAt : Bool
  completedAt : Bool
  transcription : Option String
  downloadUrl : Option String
  error : Option String
deriving DecidableEq, Repr

/-- One progress update pushed by the service (`TranscriptionProgress`). -/
structure TranscriptionProgress where
  stage : String
  progress : Nat
deriving DecidableEq, Repr

/-- The job as first inserted into the registry: queued, progress 0. -/
def queuedJob : Job :=
  { status := JobStatus.queued, progress := 0, stage := "Na fila",
    startedAt := false, completedAt := false, transcription := none,
    downloadUrl := none, error := none }

/-- Start of the detached pipeline task: `processing`, progress 5,
stage `"Iniciando"`, start timestamp set. -/
def startProcessing (j : Job) : Job :=
  { j with
    status := JobStatus.processing, progress := 5,
    stage := "Iniciando", startedAt := true }

/-- `Math.max(0, Math.min(99, p))` applied to every service progress value. -/
def clampProgress (p : Nat) : Nat :=
  max 0 (min 99 p)

/-- The progress callback in `routes.ts`:
`job.progress = Math.max(0, Math.min(99, update.progress))` and
`job.stage = update.stage`. -/
def applyUpdate (j : Job) (u : TranscriptionProgress) : Job :=
  { j with progress := clampProgress u.progress, stage := u.stage }

/-- Terminal transition: on a resolved pipeline the job completes with the
transcript and a download reference; on a rejected pipeline it fails with
the error message.  Both set progress 100 and the completion timestamp. -/
def finishJob (j : Job) (r : Except String String) : Job :=
  match r with
  | Except.ok t =>
      { j with
        status := JobStatus.completed, progress := 100,
        stage := "Concluido", completedAt := true, transcription := some t,
        downloadUrl := some "/downloads/job.txt" }
  | Except.error m =>
      { j with
        status := JobStatus.failed, progress := 100,
        stage := "Falha", completedAt := true, error := some m }

/-- Embedding of `finally { fs.promises.unlink(inputFile).catch(...) }` at
the end of the detached task: the job record is untouched, the cleanup ran. -/
def routesCleanup (j : Job) (unlinkResult : Except String Unit) : Job × Bool :=
  match swallowErrors unlinkResult with
  | Except.error e => ({ j with error := some e }, true)
  | Except.ok _ => (j, true)

/-- The job states produced before the terminal transition: inserted
`queued`, switched to `processing`, then one state per progress callback
that fired before the pipeline promise settled. -/
def midStates (updates : List TranscriptionProgress) : List Job :=
  List.scanl applyUpdate (startProcessing queuedJob) updates

/-- Full observable state trace of one job, in mutation order: inserted
`queued`, switched to `processing`, one state per progress callback fired
before the pipeline promise settled (`updates`), the terminal transition
for the pipeline outcome `r`, and then one state per progress callback
fired afterwards (`posts`).  `Promise.all` does not cancel the surviving
workers, so after a chunk failure the catch block's terminal transition can
be followed by further `onProgress` callbacks from workers still draining
the queue; those straggler callbacks mutate the already-terminal record
through the same clamping callback. -/
def jobTrace (updates posts : List TranscriptionProgress)
    (r : Except String String) : List Job :=
  queuedJob :: (midStates updates ++
    List.scanl applyUpdate
      (finishJob ((midStates updates).getLastD (startProcessing queuedJob)) r)
      posts)

/-- `Math.round(num / den)` for non-negative operands. -/
def jsRound (num den : Nat) : Nat :=
  (2 * num + den) / (2 * den)

/-- The full sequence of progress updates emitted by the chunked
`WhisperService.transcribe` for a run with `n` chunks, in emission order:
the three preprocessing checkpoints, one update per completed chunk at
`25 + Math.round((completed / n) * 65)`, and the finalization checkpoint. -/
def serviceUpdates (n : Nat) : List TranscriptionProgress :=
  [⟨"Normalizando audio", 10⟩, ⟨"Segmentando audio", 20⟩,
   ⟨"Transcrevendo blocos (Otimizado)", 25⟩] ++
  (List.range n).map (fun k =>
    ⟨"Transcrevendo (" ++ toString (k + 1) ++ "/" ++ toString n ++ ")",
     25 + jsRound (65 * (k + 1)) n⟩) ++
  [⟨"Finalizando", 98⟩]

/-! ## Concrete sample environments (used to exercise the definitions) -/

/-- A sample service configuration. -/
def baseCfg : WhisperConfig :=
  { whisperPath := "whisper-cli", modelPath := "model.bin", language := "pt" }

/-- A chunk whose recognition run exits cleanly and leaves `content`. -/
def cleanChunk (content : Option String) : ChunkEnv :=
  { event := ProcEvent.exited 0 "", partFileContent := content }

/-- A three-chunk run (directory entries deliberately unsorted) in which
every recognition process exits cleanly; chunk 1's part file is empty. -/
def demoEnv : PipelineEnv :=
  { cfg := baseCfg, inputFile := "in.wav", outputBasePath := "out",
    normalizeEvent := ProcEvent.exited 0 "",
    segmentEvent := ProcEvent.exited 0 "",
    chunkEntries := ["chunk_001.wav", "chunk_000.wav", "chunk_002.wav"],
    chunkEnv := fun i =>
      if i = 0 then cleanChunk (some "  A  ")
      else if i = 1 then cleanChunk (some "")
      else cleanChunk (some "C"),
    cpuCores := 16, rmResult := Except.ok () }

/-- Like `demoEnv` but chunk 1's recognition process exits with code 1. -/
def failEnv : PipelineEnv :=
  { demoEnv with
    chunkEnv := fun i =>
      if i = 1 then { event := ProcEvent.exited 1 "boom", partFileContent := none }
      else cleanChunk (some "A") }

/-- Like `demoEnv` but segmentation produced no `.wav` file at all. -/
def emptyEnv : PipelineEnv :=
  { demoEnv with chunkEntries := ["notes.txt"] }

/-- A one-chunk run whose recognition process exits 0 but never writes the
expected `part_000.txt`. -/
def missingOutputEnv : PipelineEnv :=
  { demoEnv with
    chunkEntries := ["chunk_000.wav"],
    chunkEnv := fun _ => { event := ProcEvent.exited 0 "", partFileContent := none } }

/-! ## General lemmas -/

/-- A clean event is an exit with code 0, and then `runCommand` resolves. -/
theorem runCommand_succeeded (command : String) (args : List String)
    (label : String) (ev : ProcEvent) (h : ev.succeeded = true) :
    runCommand command args label ev = Except.ok () := by
  cases ev with
  | spawnError msg => simp [ProcEvent.succeeded] at h
  | exited code stderr =>
      have hc : code = 0 := by simpa [ProcEvent.succeeded] using h
      subst hc
      simp [runCommand]

/-- A cleanly exiting recognition run yields the chunk's recognized text. -/
theorem processChunk_ok (cfg : WhisperConfig) (threads index : Nat)
    (chunkFile partBase : String) (cenv : ChunkEnv)
    (h : cenv.event.succeeded = true) :
    processChunk cfg threads index chunkFile partBase cenv =
      Except.ok (recognizedText cenv) := by
  unfold processChunk recognizedText
  rw [runCommand_succeeded _ _ _ _ h]
  cases cenv.partFileContent <;> rfl

/-- A recognition run exiting with a non-zero code rejects the worker with
the labelled error. -/
theorem processChunk_error (cfg : WhisperConfig) (threads index : Nat)
    (chunkFile partBase : String) (cenv : ChunkEnv) (c : Int) (s : String)
    (hev : cenv.event = ProcEvent.exited c s) (hc : c ≠ 0) :
    processChunk cfg threads index chunkFile partBase cenv =
      Except.error (trimString ("Erro no bloco " ++ toString (index + 1) ++
        ": codigo " ++ toString c ++ ". " ++ s)) := by
  unfold processChunk
  rw [hev]
  simp [runCommand, hc]

/-- Effect of writing every queued index (with its own value) on one
position of the result array. -/
theorem foldl_set_getElem? (f : Nat → String) :
    ∀ (order : List Nat) (parts : List String) (j : Nat),
      (order.foldl (fun ps i => ps.set i (f i)) parts)[j]? =
        if j ∈ order ∧ j < parts.length then some (f j) else parts[j]? := by
  intro order
  induction order with
  | nil => intro parts j; simp
  | cons i rest ih =>
      intro parts j
      rw [List.foldl_cons, ih (parts.set i (f i)) j]
      simp only [List.length_set, List.mem_cons, List.getElem?_set]
      by_cases hjr : j ∈ rest
      · by_cases hlen : j < parts.length
        · simp [hjr, hlen]
        · have h1 : parts.length ≤ j := Nat.le_of_not_lt hlen
          simp [hjr, hlen, List.getElem?_eq_none h1]
          intro h
          omega
      · by_cases hij : i = j
        · subst hij
          by_cases hlen : i < parts.length
          · simp [hjr, hlen]
          · have h1 : parts.length ≤ i := Nat.le_of_not_lt hlen
            simp [hjr, hlen, List.getElem?_eq_none h1]
        · simp [hjr, hij, Ne.symm hij]

/-- Writing each index of `range n` exactly once (in any order) into the
pre-sized array yields the results in index order. -/
theorem foldl_set_perm (f : Nat → String) (n : Nat) (order : List Nat)
    (h : order.Perm (List.range n)) :
    order.foldl (fun ps i => ps.set i (f i)) (List.replicate n "") =
      (List.range n).map f := by
  apply List.ext_getElem?
  intro j
  rw [foldl_set_getElem? f order (List.replicate n "") j]
  by_cases hj : j < n
  · have hmem : j ∈ order := h.mem_iff.mpr (List.mem_range.mpr hj)
    simp [hmem, hj, List.getElem?_range hj]
  · have hmem : j ∉ order := fun hx => hj (List.mem_range.mp (h.mem_iff.mp hx))
    have h1 : (List.replicate n (("" : String)))[j]? = none :=
      List.getElem?_eq_none (by simpa using Nat.le_of_not_lt hj)
    have h2 : (((List.range n).map f))[j]? = none :=
      List.getElem?_eq_none (by simpa using Nat.le_of_not_lt hj)
    simp [hmem, h1, h2]

/-- Draining a queue whose every chunk succeeds fills the result array. -/
theorem drainQueue_ok (results : Nat → Except String String) (f : Nat → String) :
    ∀ (order : List Nat) (parts : List String),
      (∀ i ∈ order, results i = Except.ok (f i)) →
      drainQueue results order parts =
        Except.ok (order.foldl (fun ps i => ps.set i (f i)) parts) := by
  intro order
  induction order with
  | nil => intro parts _; rfl
  | cons i rest ih =>
      intro parts h
      have hi : results i = Except.ok (f i) := h i (List.mem_cons_self i rest)
      have hrw : drainQueue results (i :: rest) parts =
          drainQueue results rest (parts.set i (f i)) := by
        simp [drainQueue, hi]
      rw [hrw, List.foldl_cons]
      exact ih (parts.set i (f i)) (fun j hj => h j (List.mem_cons_of_mem i hj))

/-- Draining a queue that contains one failing chunk (all other queued
chunks succeeding) rejects the pool. -/
theorem drainQueue_error (results : Nat → Except String String) (i0 : Nat)
    (e : String) :
    ∀ (order : List Nat) (parts : List String),
      i0 ∈ order → results i0 = Except.error e →
      (∀ j ∈ order, j ≠ i0 → ∃ t, results j = Except.ok t) →
      ∃ e', drainQueue results order parts = Except.error e' := by
  intro order
  induction order with
  | nil => intro parts h; simp at h
  | cons i rest ih =>
      intro parts hmem herr hok
      by_cases hii : i = i0
      · subst hii
        exact ⟨e, by simp [drainQueue, herr]⟩
      · obtain ⟨t, ht⟩ := hok i (List.mem_cons_self i rest) hii
        have hmem' : i0 ∈ rest := by
          rcases List.mem_cons.mp hmem with h1 | h1
          · exact absurd h1.symm hii
          · exact h1
        have hrw : drainQueue results (i :: rest) parts =
            drainQueue results rest (parts.set i t) := by
          simp [drainQueue, ht]
        rw [hrw]
        exact ih (parts.set i t) hmem' herr
          (fun j hj hji => hok j (List.mem_cons_of_mem i hj) hji)

/-! ## Claim theorems -/

/-- C8: the process runner resolves with no value on exit code 0, rejects
with an error carrying the exit code and the captured stderr text on a
non-zero exit, and rejects with an error carrying the OS-level cause when
the process could not be spawned; it runs the process exactly once (the
outcome is a pure function of the single process event). -/
theorem runCommand_contract (command : String) (args : List String)
    (label : String) (c : Int) (s msg : String) :
    runCommand command args label (ProcEvent.exited 0 s) = Except.ok () ∧
    (c ≠ 0 → runCommand command args label (ProcEvent.exited c s) =
      Except.error (trimString (label ++ ": codigo " ++ toString c ++ ". " ++ s))) ∧
    runCommand command args label (ProcEvent.spawnError msg) =
      Except.error (label ++ ": " ++ msg) := by
  refine ⟨by simp [runCommand], fun hc => by simp [runCommand, hc], rfl⟩

/-- Closed instance of `runCommand_contract`, hypotheses discharged. -/
theorem runCommand_contract_witness :
    runCommand "whisper-cli" [] "L" (ProcEvent.exited 0 "e") = Except.ok () ∧
    runCommand "whisper-cli" [] "L" (ProcEvent.exited 1 "boom") =
      Except.error (trimString ("L" ++ ": codigo " ++ toString (1 : Int) ++
        ". " ++ "boom")) ∧
    runCommand "whisper-cli" [] "L" (ProcEvent.spawnError "ENOENT") =
      Except.error ("L" ++ ": " ++ "ENOENT") := by
  obtain ⟨h1, h2, h3⟩ := runCommand_contract "whisper-cli" [] "L" 1 "boom" "ENOENT"
  exact ⟨h1, h2 (by decide), h3⟩

/-- C10: for `N ≥ 1` chunks and `C ≥ 1` CPU cores, the worker-pool size is
`min(N, max(1, ⌊C / 4⌋))`, hence at least 1 and at most `N`; each
recognition process is passed `max(4, ⌊C / poolSize⌋)` threads (as its `-t`
argument), hence always at least 4. -/
theorem concurrency_spec (n c : Nat) (hn : 1 ≤ n) (hc : 1 ≤ c) :
    concurrency n c = min n (max 1 (c / 4)) ∧
    1 ≤ concurrency n c ∧
    concurrency n c ≤ n ∧
    threadsPerProcess n c = max 4 (c / concurrency n c) ∧
    4 ≤ threadsPerProcess n c ∧
    ∀ cfg chunkFile partBase,
      chunkArgs cfg (threadsPerProcess n c) chunkFile partBase =
        ["-m", cfg.modelPath, "-l", cfg.language,
         "-t", toString (threadsPerProcess n c),
         "-p", initialPrompt, "-f", chunkFile, "-otxt", "-of", partBase] := by
  refine ⟨rfl, ?_, min_le_left _ _, rfl, le_max_left _ _, fun _ _ _ => rfl⟩
  exact le_min hn (le_max_left _ _)

/-- Closed instance of `concurrency_spec` at 3 chunks and 16 cores. -/
theorem concurrency_spec_witness :
    concurrency 3 16 = min 3 (max 1 (16 / 4)) ∧
    1 ≤ concurrency 3 16 ∧
    concurrency 3 16 ≤ 3 ∧
    threadsPerProcess 3 16 = max 4 (16 / concurrency 3 16) ∧
    4 ≤ threadsPerProcess 3 16 ∧
    ∀ cfg chunkFile partBase,
      chunkArgs cfg (threadsPerProcess 3 16) chunkFile partBase =
        ["-m", cfg.modelPath, "-l", cfg.language,
         "-t", toString (threadsPerProcess 3 16),
         "-p", initialPrompt, "-f", chunkFile, "-otxt", "-of", partBase] :=
  concurrency_spec 3 16 (by decide) (by decide)

/-- C3: the ffmpeg normalization invocation built by the code is exactly
`-y -i <input> -ac 1 -ar 16000 <output>`: it contains no duration-limiting
flag (`-t`, `-ss` or `-to`) at all, for any input.  The "full audio" flag
computed at the job-acceptance boundary in `routes.ts` is passed as a
fourth argument to a three-parameter `transcribe` and therefore cannot
reach this invocation; no default duration cap is ever applied. -/
theorem normalize_no_duration_cap :
    normalizeArgs "uploads/long-upload.wav" "normalized.wav" =
      ["-y", "-i", "uploads/long-upload.wav", "-ac", "1", "-ar", "16000",
       "normalized.wav"] ∧
    "-t" ∉ normalizeArgs "uploads/long-upload.wav" "normalized.wav" ∧
    "-ss" ∉ normalizeArgs "uploads/long-upload.wav" "normalized.wav" ∧
    "-to" ∉ normalizeArgs "uploads/long-upload.wav" "normalized.wav" := by
  refine ⟨rfl, ?_, ?_, ?_⟩ <;> decide

/-- When both preprocessing invocations exit cleanly, the pipeline reduces
to the chunk-enumeration and worker-pool phase. -/
theorem transcribePipeline_eq (env : PipelineEnv) (order : List Nat)
    (hnorm : env.normalizeEvent.succeeded = true)
    (hseg : env.segmentEvent.succeeded = true) :
    transcribePipeline env order =
      (if (pipelineChunks env).length = 0 then
        Except.error "Nenhum bloco de audio foi gerado para transcricao."
      else
        match drainQueue (chunkResult env) order
            (List.replicate (pipelineChunks env).length "") with
        | Except.error e => Except.error e
        | Except.ok parts => Except.ok (String.intercalate "\n" parts)) := by
  unfold transcribePipeline
  rw [runCommand_succeeded _ _ _ _ hnorm, runCommand_succeeded _ _ _ _ hseg]

/-- C1: for every chunk count and every completion order of the workers
(any permutation of the chunk indices), the assembled transcript is the
newline-join of the per-chunk recognized (trimmed) texts in chunk-index
order, and entry `i` of the joined list is chunk `i`'s recognized text — an
empty chunk result contributing an empty line. -/
theorem transcript_index_order (env : PipelineEnv) (order : List Nat)
    (hperm : order.Perm (List.range (pipelineChunks env).length))
    (hn : 1 ≤ (pipelineChunks env).length)
    (hnorm : env.normalizeEvent.succeeded = true)
    (hseg : env.segmentEvent.succeeded = true)
    (hchunks : ∀ i, i < (pipelineChunks env).length →
      ((env.chunkEnv i).event).succeeded = true) :
    transcribePipeline env order =
      Except.ok (String.intercalate "\n"
        ((List.range (pipelineChunks env).length).map
          (fun i => recognizedText (env.chunkEnv i)))) ∧
    ∀ i, i < (pipelineChunks env).length →
      ((List.range (pipelineChunks env).length).map
        (fun k => recognizedText (env.chunkEnv k)))[i]? =
        some (recognizedText (env.chunkEnv i)) := by
  have hres : ∀ i ∈ order,
      chunkResult env i = Except.ok (recognizedText (env.chunkEnv i)) := by
    intro i hi
    have hilt : i < (pipelineChunks env).length :=
      List.mem_range.mp (hperm.mem_iff.mp hi)
    exact processChunk_ok _ _ _ _ _ _ (hchunks i hilt)
  have hdrain := drainQueue_ok (chunkResult env)
    (fun i => recognizedText (env.chunkEnv i)) order
    (List.replicate (pipelineChunks env).length "") hres
  rw [foldl_set_perm _ _ _ hperm] at hdrain
  constructor
  · rw [transcribePipeline_eq env order hnorm hseg, if_neg (by omega), hdrain]
  · intro i hi
    simp [List.getElem?_range hi]

/-- Closed instance of `transcript_index_order` on a three-chunk run with
completion order 2, 0, 1 and an empty middle chunk. -/
theorem transcript_index_order_witness :
    ([2, 0, 1] : List Nat).Perm (List.range (pipelineChunks demoEnv).length) ∧
    1 ≤ (pipelineChunks demoEnv).length ∧
    (transcribePipeline demoEnv [2, 0, 1] =
      Except.ok (String.intercalate "\n"
        ((List.range (pipelineChunks demoEnv).length).map
          (fun i => recognizedText (demoEnv.chunkEnv i)))) ∧
    ∀ i, i < (pipelineChunks demoEnv).length →
      ((List.range (pipelineChunks demoEnv).length).map
        (fun k => recognizedText (demoEnv.chunkEnv k)))[i]? =
        some (recognizedText (demoEnv.chunkEnv i))) :=
  ⟨by decide, by decide,
    transcript_index_order demoEnv [2, 0, 1] (by decide) (by decide)
      (by decide) (by decide) (by decide)⟩

/-- C6: when segmentation yields zero chunk files the pipeline rejects
with the `NoChunksProduced` message, the job ends `failed`, and no chunk
recognition result is ever consulted (the outcome is the same for every
possible per-chunk behaviour). -/
theorem no_chunks_fails (env : PipelineEnv) (order : List Nat)
    (hnorm : env.normalizeEvent.succeeded = true)
    (hseg : env.segmentEvent.succeeded = true)
    (hzero : (pipelineChunks env).length = 0) :
    transcribePipeline env order =
      Except.error "Nenhum bloco de audio foi gerado para transcricao." ∧
    (∀ jb : Job,
      (finishJob jb (transcribePipeline env order)).status = JobStatus.failed) ∧
    ∀ cenvs : Nat → ChunkEnv,
      transcribePipeline { env with chunkEnv := cenvs } order =
        Except.error "Nenhum bloco de audio foi gerado para transcricao." := by
  have key : ∀ cenvs : Nat → ChunkEnv,
      transcribePipeline { env with chunkEnv := cenvs } order =
        Except.error "Nenhum bloco de audio foi gerado para transcricao." := by
    intro cenvs
    rw [transcribePipeline_eq { env with chunkEnv := cenvs } order hnorm hseg]
    exact if_pos hzero
  have h0 : transcribePipeline env order =
      Except.error "Nenhum bloco de audio foi gerado para transcricao." :=
    key env.chunkEnv
  refine ⟨h0, ?_, key⟩
  intro jb
  rw [h0]
  rfl

/-- Closed instance of `no_chunks_fails` on a run whose segmentation left
no `.wav` entry. -/
theorem no_chunks_fails_witness :
    (pipelineChunks emptyEnv).length = 0 ∧
    (transcribePipeline emptyEnv [] =
      Except.error "Nenhum bloco de audio foi gerado para transcricao." ∧
    (∀ jb : Job,
      (finishJob jb (transcribePipeline emptyEnv [])).status = JobStatus.failed) ∧
    ∀ cenvs : Nat → ChunkEnv,
      transcribePipeline { emptyEnv with chunkEnv := cenvs } [] =
        Except.error "Nenhum bloco de audio foi gerado para transcricao.") :=
  ⟨by decide, no_chunks_fails emptyEnv [] (by decide) (by decide) (by decide)⟩

/-- C5: if exactly one chunk's recognition invocation exits with a
non-zero code (all other chunks exiting cleanly), the whole job rejects
and reaches `failed`, never `completed`; the failed job never stores a
partial transcript. -/
theorem one_bad_chunk_fails_job (env : PipelineEnv) (order : List Nat)
    (i0 : Nat) (c : Int) (s : String)
    (hperm : order.Perm (List.range (pipelineChunks env).length))
    (hnorm : env.normalizeEvent.succeeded = true)
    (hseg : env.segmentEvent.succeeded = true)
    (hi0 : i0 < (pipelineChunks env).length)
    (hev : (env.chunkEnv i0).event = ProcEvent.exited c s)
    (hc : c ≠ 0)
    (hothers : ∀ j, j < (pipelineChunks env).length → j ≠ i0 →
      ((env.chunkEnv j).event).succeeded = true) :
    ∃ e, transcribePipeline env order = Except.error e ∧
      ∀ jb : Job,
        (finishJob jb (transcribePipeline env order)).status =
          JobStatus.failed ∧
        (finishJob jb (transcribePipeline env order)).status ≠
          JobStatus.completed ∧
        (finishJob jb (transcribePipeline env order)).transcription =
          jb.transcription := by
  have hn0 : (pipelineChunks env).length ≠ 0 := by omega
  have herr : chunkResult env i0 = Except.error
      (trimString ("Erro no bloco " ++ toString (i0 + 1) ++ ": codigo " ++
        toString c ++ ". " ++ s)) :=
    processChunk_error _ _ _ _ _ _ _ _ hev hc
  have hmem : i0 ∈ order := hperm.mem_iff.mpr (List.mem_range.mpr hi0)
  have hoks : ∀ j ∈ order, j ≠ i0 → ∃ t, chunkResult env j = Except.ok t := by
    intro j hj hji
    exact ⟨_, processChunk_ok _ _ _ _ _ _
      (hothers j (List.mem_range.mp (hperm.mem_iff.mp hj)) hji)⟩
  obtain ⟨e', he'⟩ := drainQueue_error (chunkResult env) i0 _ order
    (List.replicate (pipelineChunks env).length "") hmem herr hoks
  have hpipe : transcribePipeline env order = Except.error e' := by
    rw [transcribePipeline_eq env order hnorm hseg, if_neg hn0, he']
  refine ⟨e', hpipe, ?_⟩
  intro jb
  rw [hpipe]
  refine ⟨rfl, ?_, rfl⟩
  intro h
  exact JobStatus.noConfusion h

/-- Closed instance of `one_bad_chunk_fails_job`: chunk 1 of three exits
with code 1 while chunks 0 and 2 exit cleanly. -/
theorem one_bad_chunk_fails_job_witness :
    ([1, 2, 0] : List Nat).Perm (List.range (pipelineChunks failEnv).length) ∧
    1 < (pipelineChunks failEnv).length ∧
    (failEnv.chunkEnv 1).event = ProcEvent.exited 1 "boom" ∧
    (∃ e, transcribePipeline failEnv [1, 2, 0] = Except.error e ∧
      ∀ jb : Job,
        (finishJob jb (transcribePipeline failEnv [1, 2, 0])).status =
          JobStatus.failed ∧
        (finishJob jb (transcribePipeline failEnv [1, 2, 0])).status ≠
          JobStatus.completed ∧
        (finishJob jb (transcribePipeline failEnv [1, 2, 0])).transcription =
          jb.transcription) :=
  ⟨by decide, by decide, by decide,
    one_bad_chunk_fails_job failEnv [1, 2, 0] 1 1 "boom" (by decide)
      (by decide) (by decide) (by decide) (by decide) (by decide) (by decide)⟩

/-- C2 counterexample: in the chunked pipeline a chunk whose recognition
exits 0 without writing its part file is silently treated as an empty
result — the job completes (with an empty transcript) instead of failing. -/
theorem missing_output_completes :
    transcribePipeline missingOutputEnv [0] = Except.ok "" ∧
    (finishJob (startProcessing queuedJob)
      (transcribePipeline missingOutputEnv [0])).status =
      JobStatus.completed ∧
    (finishJob (startProcessing queuedJob)
      (transcribePipeline missingOutputEnv [0])).status ≠
      JobStatus.failed := by
  refine ⟨rfl, rfl, ?_⟩
  decide

/-- C2 amended: in the chunked worker a zero-exit recognition whose part
file is missing contributes the empty result and raises no error, while
the single-pass revision of `transcribe` rejects with the
OutputMissing-style message when `<base>.txt` is absent after exit 0. -/
theorem missing_output_amended (cfg : WhisperConfig) (threads index : Nat)
    (chunkFile partBase s : String) (senv : SinglePassEnv)
    (hn : senv.normalizeEvent.succeeded = true)
    (hw : senv.whisperEvent.succeeded = true)
    (hmiss : senv.outputFileContent = none) :
    processChunk cfg threads index chunkFile partBase
      { event := ProcEvent.exited 0 s, partFileContent := none } =
      Except.ok "" ∧
    transcribeSinglePass senv =
      Except.error "Arquivo de transcricao nao foi gerado." := by
  constructor
  · simp [processChunk, runCommand]
  · unfold transcribeSinglePass
    rw [runCommand_succeeded _ _ _ _ hn, runCommand_succeeded _ _ _ _ hw, hmiss]

/-- Closed instance of `missing_output_amended`. -/
theorem missing_output_amended_witness :
    processChunk baseCfg 4 0 "chunks/chunk_000.wav" "partial/part_000"
      { event := ProcEvent.exited 0 "", partFileContent := none } =
      Except.ok "" ∧
    transcribeSinglePass
      { normalizeEvent := ProcEvent.exited 0 "",
        whisperEvent := ProcEvent.exited 0 "", outputFileContent := none } =
      Except.error "Arquivo de transcricao nao foi gerado." :=
  missing_output_amended baseCfg 4 0 "chunks/chunk_000.wav" "partial/part_000"
    "" _ (by decide) (by decide) (by decide)

/-- The `.catch(() => undefined)` handler turns every cleanup outcome into
a resolved promise. -/
theorem swallowErrors_ok (r : Except String Unit) :
    swallowErrors r = Except.ok () := by
  cases r <;> rfl

/-- C9: on every exit path of the pipeline the scratch-directory removal
runs and its own failure is swallowed: the transcription outcome is exactly
the pipeline body's outcome whatever the removal did, and the routes-level
unlink of the uploaded source likewise never alters the finished job
record. -/
theorem cleanup_never_masks_outcome (env : PipelineEnv) (order : List Nat)
    (rm rm' unlink : Except String Unit) (jb : Job)
    (body : Except String String) :
    (transcribe env order).2 = true ∧
    (transcribe env order).1 = transcribePipeline env order ∧
    (transcribe { env with rmResult := rm } order).1 =
      (transcribe { env with rmResult := rm' } order).1 ∧
    runWithCleanup body (swallowErrors rm) = (body, true) ∧
    routesCleanup jb unlink = (jb, true) := by
  refine ⟨?_, ?_, ?_, ?_, ?_⟩
  · simp [transcribe, runWithCleanup, swallowErrors_ok]
  · simp [transcribe, runWithCleanup, swallowErrors_ok]
  · cases rm <;> cases rm' <;> rfl
  · simp [runWithCleanup, swallowErrors_ok]
  · simp [routesCleanup, swallowErrors_ok]

/-- The progress callback mutates only `progress` and `stage`: every state
scanned from a job `j` through `applyUpdate` keeps `j`'s status, completion
timestamp and start timestamp. -/
theorem scanl_applyUpdate_fields (us : List TranscriptionProgress) :
    ∀ (j : Job), ∀ jb ∈ List.scanl applyUpdate j us,
      jb.status = j.status ∧ jb.completedAt = j.completedAt ∧
      jb.startedAt = j.startedAt := by
  induction us with
  | nil =>
      intro j jb hm
      rw [List.scanl_nil, List.mem_singleton] at hm
      subst hm; exact ⟨rfl, rfl, rfl⟩
  | cons u rest ih =>
      intro j jb hm
      rw [List.scanl_cons, List.cons_append, List.nil_append,
        List.mem_cons] at hm
      rcases hm with h1 | h1
      · subst h1; exact ⟨rfl, rfl, rfl⟩
      · exact ih (applyUpdate j u) jb h1

/-- Every mid-pipeline job state carries status `processing` (the progress
callback never changes the status field). -/
theorem midStates_processing (updates : List TranscriptionProgress) :
    ∀ jb ∈ midStates updates, jb.status = JobStatus.processing := by
  intro jb hm
  exact (scanl_applyUpdate_fields updates (startProcessing queuedJob) jb hm).1

/-- Both terminal transitions set progress 100. -/
theorem finishJob_progress (jb : Job) (r : Except String String) :
    (finishJob jb r).progress = 100 := by
  cases r <;> rfl

/-- C7: a job's status follows the machine
`queued → processing → (completed | failed)` along the complete mutation
history — straggler callbacks after the terminal transition included: the
trace starts `queued` with progress 0, its second state is `processing`
with the non-zero progress floor 5 and the start timestamp set, every
state before the terminal transition is non-terminal, the transition
itself sets a terminal status (`completed` exactly when the pipeline
resolved), progress 100 and the completion timestamp, and it happens
exactly once: every later state — including those mutated by straggler
progress callbacks — keeps the same terminal status and completion
timestamp, so the job never transitions out of a terminal state. -/
theorem job_lifecycle (updates posts : List TranscriptionProgress)
    (r : Except String String) :
    (jobTrace updates posts r).head? = some queuedJob ∧
    queuedJob.status = JobStatus.queued ∧
    queuedJob.progress = 0 ∧
    ((jobTrace updates posts r).drop 1).head? = some (startProcessing queuedJob) ∧
    (startProcessing queuedJob).status = JobStatus.processing ∧
    (startProcessing queuedJob).progress = 5 ∧
    (startProcessing queuedJob).startedAt = true ∧
    jobTrace updates posts r = queuedJob :: (midStates updates ++
      List.scanl applyUpdate
        (finishJob ((midStates updates).getLastD (startProcessing queuedJob)) r)
        posts) ∧
    (∀ jb ∈ queuedJob :: midStates updates, jb.status.isTerminal = false) ∧
    (∀ jb : Job,
      (finishJob jb r).status.isTerminal = true ∧
      (finishJob jb r).progress = 100 ∧
      (finishJob jb r).completedAt = true ∧
      ((finishJob jb r).status = JobStatus.completed ↔ ∃ t, r = Except.ok t)) ∧
    (∀ jb ∈ List.scanl applyUpdate
        (finishJob ((midStates updates).getLastD (startProcessing queuedJob)) r)
        posts,
      jb.status =
        (finishJob ((midStates updates).getLastD (startProcessing queuedJob))
          r).status ∧
      jb.status.isTerminal = true ∧ jb.completedAt = true) := by
  have h4 : ((jobTrace updates posts r).drop 1).head? =
      some (startProcessing queuedJob) := by
    cases updates <;> rfl
  have h9 : ∀ jb : Job,
      (finishJob jb r).status.isTerminal = true ∧
      (finishJob jb r).progress = 100 ∧
      (finishJob jb r).completedAt = true ∧
      ((finishJob jb r).status = JobStatus.completed ↔ ∃ t, r = Except.ok t) := by
    intro jb
    cases r with
    | ok t => exact ⟨rfl, rfl, rfl, ⟨fun _ => ⟨t, rfl⟩, fun _ => rfl⟩⟩
    | error m =>
        refine ⟨rfl, rfl, rfl, ?_, ?_⟩
        · intro h
          exact JobStatus.noConfusion h
        · rintro ⟨t, ht⟩
          exact Except.noConfusion ht
  have h10 : ∀ jb ∈ queuedJob :: midStates updates,
      jb.status.isTerminal = false := by
    intro jb hm
    rcases List.mem_cons.mp hm with h1 | h1
    · subst h1; rfl
    · rw [midStates_processing updates jb h1]; rfl
  have h11 : ∀ jb ∈ List.scanl applyUpdate
      (finishJob ((midStates updates).getLastD (startProcessing queuedJob)) r)
      posts,
      jb.status =
        (finishJob ((midStates updates).getLastD (startProcessing queuedJob))
          r).status ∧
      jb.status.isTerminal = true ∧ jb.completedAt = true := by
    intro jb hm
    obtain ⟨hs, hc, _⟩ := scanl_applyUpdate_fields posts _ jb hm
    refine ⟨hs, ?_, ?_⟩
    · rw [hs]
      exact (h9 ((midStates updates).getLastD (startProcessing queuedJob))).1
    · rw [hc]
      exact (h9 ((midStates updates).getLastD (startProcessing queuedJob))).2.2.1
  exact ⟨rfl, rfl, rfl, h4, rfl, rfl, rfl, rfl, h10, h9, h11⟩

/-- The progress values along the mid-pipeline states: the floor 5 followed
by the clamped service updates. -/
theorem scanl_map_progress (updates : List TranscriptionProgress) :
    ∀ j : Job, (List.scanl applyUpdate j updates).map Job.progress =
      j.progress :: updates.map (fun u => clampProgress u.progress) := by
  induction updates with
  | nil => intro j; rfl
  | cons u rest ih =>
      intro j
      rw [List.scanl_cons, List.cons_append, List.nil_append, List.map_cons,
        ih (applyUpdate j u)]
      rfl

/-- The progress values along a job trace without post-terminal straggler
callbacks. -/
theorem jobTrace_map_progress (updates : List TranscriptionProgress)
    (r : Except String String) :
    (jobTrace updates [] r).map Job.progress =
      0 :: 5 :: ((updates.map fun u => clampProgress u.progress) ++ [100]) := by
  show (queuedJob :: (midStates updates ++ [_])).map Job.progress = _
  rw [List.map_cons, List.map_append, midStates, scanl_map_progress updates]
  simp [finishJob_progress]
  exact ⟨rfl, rfl⟩

/-- `Math.round((k / n) * 65)` never exceeds 65 while `k ≤ n`. -/
theorem jsRound_le (k n : Nat) (hk : k ≤ n) (hn : 1 ≤ n) :
    jsRound (65 * k) n ≤ 65 := by
  unfold jsRound
  have h2n : 0 < 2 * n := by omega
  have hlt : (2 * (65 * k) + n) / (2 * n) < 66 :=
    (Nat.div_lt_iff_lt_mul h2n).mpr (by omega)
  omega

/-- `Math.round(· / n)` is monotone in the numerator. -/
theorem jsRound_mono (a b n : Nat) (h : a ≤ b) :
    jsRound a n ≤ jsRound b n := by
  unfold jsRound
  exact Nat.div_le_div_right (by omega)

/-- Every update the chunked service emits has progress between 10 and 98. -/
theorem serviceUpdates_bounds (n : Nat) (hn : 1 ≤ n) :
    ∀ u ∈ serviceUpdates n, 10 ≤ u.progress ∧ u.progress ≤ 98 := by
  intro u hu
  unfold serviceUpdates at hu
  rcases List.mem_append.mp hu with h1 | h1
  · rcases List.mem_append.mp h1 with h2 | h2
    · rcases List.mem_cons.mp h2 with h | h
      · subst h; exact ⟨by decide, by decide⟩
      rcases List.mem_cons.mp h with h3 | h3
      · subst h3; exact ⟨by decide, by decide⟩
      rcases List.mem_cons.mp h3 with h5 | h5
      · subst h5; exact ⟨by decide, by decide⟩
      · exact absurd h5 (List.not_mem_nil u)
    · rw [List.mem_map] at h2
      obtain ⟨k, hk, hku⟩ := h2
      rw [List.mem_range] at hk
      have hle : jsRound (65 * (k + 1)) n ≤ 65 :=
        jsRound_le (k + 1) n (by omega) hn
      subst hku
      refine ⟨?_, ?_⟩
      · show 10 ≤ 25 + jsRound (65 * (k + 1)) n
        omega
      · show 25 + jsRound (65 * (k + 1)) n ≤ 98
        omega
  · rw [List.mem_singleton] at h1
    subst h1; exact ⟨by decide, by decide⟩

/-- The progress values the chunked service emits are non-decreasing in
emission order. -/
theorem serviceUpdates_progress_pairwise (n : Nat) (hn : 1 ≤ n) :
    List.Pairwise (· ≤ ·) ((serviceUpdates n).map (fun u => u.progress)) := by
  unfold serviceUpdates
  rw [List.map_append, List.map_append, List.map_map]
  rw [List.pairwise_append]
  refine ⟨?_, by decide, ?_⟩
  · rw [List.pairwise_append]
    refine ⟨by decide, ?_, ?_⟩
    · refine List.pairwise_map.mpr ?_
      refine (List.pairwise_lt_range n).imp ?_
      intro a b hab
      show 25 + jsRound (65 * (a + 1)) n ≤ 25 + jsRound (65 * (b + 1)) n
      have := jsRound_mono (65 * (a + 1)) (65 * (b + 1)) n (by omega)
      omega
    · intro a ha b hb
      have ha3 : a = 10 ∨ a = 20 ∨ a = 25 := by simpa using ha
      rw [List.mem_map] at hb
      obtain ⟨k, _, hkb⟩ := hb
      subst hkb
      show a ≤ 25 + jsRound (65 * (k + 1)) n
      omega
  · intro a ha b hb
    have hb98 : b = 98 := by simpa using hb
    subst hb98
    rw [List.mem_append] at ha
    rcases ha with ha | ha
    · have ha3 : a = 10 ∨ a = 20 ∨ a = 25 := by simpa using ha
      omega
    · rw [List.mem_map] at ha
      obtain ⟨k, hk, hka⟩ := ha
      rw [List.mem_range] at hk
      have hle : jsRound (65 * (k + 1)) n ≤ 65 :=
        jsRound_le (k + 1) n (by omega) hn
      subst hka
      show 25 + jsRound (65 * (k + 1)) n ≤ 98
      omega

/-- The clamped progress values along a job trace driven by any prefix of
the service's emission sequence, with no post-terminal callbacks, are
non-decreasing. -/
theorem progressList_pairwise (n m : Nat) (hn : 1 ≤ n)
    (r : Except String String) :
    List.Pairwise (· ≤ ·)
      ((jobTrace ((serviceUpdates n).take m) [] r).map Job.progress) := by
  rw [jobTrace_map_progress]
  have hupd : List.Pairwise
      (fun u v : TranscriptionProgress => u.progress ≤ v.progress)
      ((serviceUpdates n).take m) :=
    ((List.pairwise_map.mp (serviceUpdates_progress_pairwise n hn)).sublist
      (List.take_sublist m _))
  have hclamped : List.Pairwise (· ≤ ·)
      (((serviceUpdates n).take m).map (fun u => clampProgress u.progress)) := by
    refine List.pairwise_map.mpr (hupd.imp ?_)
    intro a b hab
    unfold clampProgress
    omega
  have hmem : ∀ x ∈ ((serviceUpdates n).take m).map
      (fun u => clampProgress u.progress), 5 ≤ x ∧ x ≤ 99 := by
    intro x hx
    rw [List.mem_map] at hx
    obtain ⟨u, hu, hux⟩ := hx
    have hb := serviceUpdates_bounds n hn u
      ((List.take_sublist m _).mem hu)
    subst hux
    unfold clampProgress
    omega
  refine List.Pairwise.cons ?_ (List.Pairwise.cons ?_ ?_)
  · intro b _; exact Nat.zero_le b
  · intro b hb
    rw [List.mem_append] at hb
    rcases hb with hb | hb
    · exact (hmem b hb).1
    · rw [List.mem_singleton] at hb; omega
  · rw [List.pairwise_append]
    refine ⟨hclamped, List.pairwise_singleton _ _, ?_⟩
    intro a ha b hb
    rw [List.mem_singleton] at hb
    subst hb
    have := (hmem a ha).2
    omega

/-- Every mid-pipeline state's progress is at most 99 (the clamp in the
routes callback). -/
theorem midStates_progress_le (updates : List TranscriptionProgress) :
    ∀ jb ∈ midStates updates, jb.progress ≤ 99 := by
  intro jb hm
  have hmem : jb.progress ∈ (midStates updates).map Job.progress :=
    List.mem_map_of_mem Job.progress hm
  rw [midStates, scanl_map_progress updates, List.mem_cons] at hmem
  rcases hmem with h | h
  · have h5 : (startProcessing queuedJob).progress = 5 := rfl
    omega
  · rw [List.mem_map] at h
    obtain ⟨u, _, hu⟩ := h
    unfold clampProgress at hu
    omega

/-- C4 counterexample: the claimed monotonicity and `100 iff terminal`
equivalence fail on the program.  `Promise.all` does not cancel surviving
workers, so after a chunk failure the catch block's terminal transition
(`failed`, progress 100) can be followed by a straggler `onProgress`
callback, which the routes callback applies to the already-terminal
record: successive snapshots then report progress dropping from 100 to a
clamped mid-pipeline value on a `failed` job.  Concrete run: one
pre-failure update (10), failure, then one straggler update (58) — the
trace's progress values are 0, 5, 10, 100, 58. -/
theorem progress_drops_after_failure :
    ¬ List.Chain' (· ≤ ·)
      ((jobTrace [⟨"Normalizando audio", 10⟩]
        [⟨"Transcrevendo (1/2)", 58⟩] (Except.error "boom")).map
          Job.progress) ∧
    ∃ jb ∈ jobTrace [⟨"Normalizando audio", 10⟩]
        [⟨"Transcrevendo (1/2)", 58⟩] (Except.error "boom"),
      jb.status.isTerminal = true ∧ jb.progress ≠ 100 := by
  have hlist : (jobTrace [⟨"Normalizando audio", 10⟩]
      [⟨"Transcrevendo (1/2)", 58⟩] (Except.error "boom")).map Job.progress =
      [0, 5, 10, 100, 58] := by decide
  constructor
  · intro hch
    rw [hlist, List.chain'_cons, List.chain'_cons, List.chain'_cons,
      List.chain'_cons] at hch
    obtain ⟨-, -, -, h58, -⟩ := hch
    omega
  · decide

/-- C4 amended: up to and including the terminal transition — that is,
along every job trace driven by any prefix of the service's emission
sequence with no post-terminal straggler callback — the observed progress
values never decrease, progress is 100 exactly on the terminal state, and
every mid-pipeline update is clamped strictly below 100.  (A straggler
callback surviving a pool rejection can later lower the failed job's
progress below 100, refuting the unrestricted claim.) -/
theorem progress_monotone (n m : Nat) (hn : 1 ≤ n)
    (r : Except String String) :
    List.Chain' (· ≤ ·)
      ((jobTrace ((serviceUpdates n).take m) [] r).map Job.progress) ∧
    (∀ jb ∈ jobTrace ((serviceUpdates n).take m) [] r,
      (jb.progress = 100 ↔ jb.status.isTerminal = true)) ∧
    (∀ u ∈ (serviceUpdates n).take m, clampProgress u.progress < 100) := by
  refine ⟨(progressList_pairwise n m hn r).chain', ?_, ?_⟩
  · intro jb hm
    rcases List.mem_cons.mp hm with h1 | h1
    · subst h1
      constructor
      · intro h; exact absurd h (by decide)
      · intro h; exact absurd h (by decide)
    rcases List.mem_append.mp h1 with h2 | h2
    · have hst := midStates_processing _ jb h2
      have hpr := midStates_progress_le _ jb h2
      constructor
      · intro h; omega
      · intro h; rw [hst] at h; exact absurd h (by decide)
    · rw [List.scanl_nil, List.mem_singleton] at h2
      subst h2
      constructor
      · intro _
        cases r <;> rfl
      · intro _
        exact finishJob_progress _ r
  · intro u _
    unfold clampProgress
    omega

/-- Closed instance of `progress_monotone` for a two-chunk job observed
through its full update sequence, ending completed. -/
theorem progress_monotone_witness :
    1 ≤ 2 ∧
    (List.Chain' (· ≤ ·)
      ((jobTrace ((serviceUpdates 2).take 6) [] (Except.ok "done")).map
        Job.progress) ∧
    (∀ jb ∈ jobTrace ((serviceUpdates 2).take 6) [] (Except.ok "done"),
      (jb.progress = 100 ↔ jb.status.isTerminal = true)) ∧
    (∀ u ∈ (serviceUpdates 2).take 6, clampProgress u.progress < 100)) :=
  ⟨by decide, progress_monotone 2 6 (by decide) (Except.ok "done")⟩

end WhisperTranscriber
